import Mathlib

/-!
Shallow embedding of `core/quokka.py` (the Quokka fault-detection harness).

The process-supervision primitive (`ExternalProcess`) is modelled with an
explicit timeline: a spawned process has an optional natural exit time and a
natural exit code, and a forced kill is recorded as an optional kill time.
Polling at a time `t` observes the earliest of the two exits.  Time is ℚ so
that the source's poll interval `min(timeout / 1000, 0.25)` is exact.

`wait`, `stop`, `set_environ`, `is_running`, `attach_monitors`,
`attach_loggers`/`detect_faults` and the plugin-resolution step of
`run_plugin` are each translated from the source; fallible Python code
(uncaught exceptions) becomes `Except`/`Option` results.
-/

namespace Quokka

/-- Exit codes of OS processes (Python `Popen.returncode`). -/
abbrev Code := Int

/-- The exit status produced by a forced kill (SIGKILL). -/
def killCode : Code := -9

/-- A spawned OS process: the time at which it exits on its own (if ever)
and the code it then returns.  This is the external world's behaviour,
fixed at spawn time. -/
structure Proc where
  natExit : Option ℚ
  natCode : Code
deriving DecidableEq, Repr

/-- The supervised process state: the process plus the time of a forced
kill, when one was delivered (`ExternalProcess.stop`). -/
structure ProcSt where
  proc : Proc
  killedAt : Option ℚ
deriving DecidableEq, Repr

/-- The effective exit of a process: the earlier of its natural exit and a
forced kill, with the corresponding status. -/
def effExit (ps : ProcSt) : Option (ℚ × Code) :=
  match ps.proc.natExit, ps.killedAt with
  | none, none => none
  | some te, none => some (te, ps.proc.natCode)
  | none, some tk => some (tk, killCode)
  | some te, some tk =>
      if te ≤ tk then some (te, ps.proc.natCode) else some (tk, killCode)

/-- `self.process.poll()` at time `t`: the exit status if the process has
exited by `t`, else `None`.  Non-blocking. -/
def pollAt (ps : ProcSt) (t : ℚ) : Option Code :=
  match effExit ps with
  | some (te, c) => if te ≤ t then some c else none
  | none => none

/-- `self.process.wait()` (no timeout) entered at time `t`: blocks until
the effective exit; `none` means the call never returns. -/
def blockingWait (ps : ProcSt) (t : ℚ) : Option (Code × ℚ) :=
  match effExit ps with
  | some (te, c) => some (c, max t te)
  | none => none

/-- The effect of a delivered SIGKILL at time `t` (the successful path of
`ExternalProcess.stop`): records the kill time if the process was not
already killed. -/
def stopEffect (ps : ProcSt) (t : ℚ) : ProcSt :=
  match ps.killedAt with
  | some _ => ps
  | none => { ps with killedAt := some t }

/-- One observable action of `ExternalProcess.stop`. -/
inductive StopAct where
  | terminate
  | kill
  | logError
deriving DecidableEq, Repr

/-- Fault injection for `stop`: whether `terminate()` and `kill()` raise. -/
structure StopBehavior where
  terminateRaises : Bool
  killRaises : Bool
deriving DecidableEq, Repr

/-- The `try` body of `ExternalProcess.stop`: `terminate()` then `kill()`.
Returns the state, the actions attempted, and the exception the body
raises (if any) before the `except` clause is consulted.  A raise in
`terminate()` prevents `kill()` from being attempted. -/
def terminate_kill (ps : ProcSt) (b : StopBehavior) (t : ℚ) :
    ProcSt × List StopAct × Option String :=
  if b.terminateRaises then (ps, [.terminate], some "terminate raised")
  else if b.killRaises then (ps, [.terminate, .kill], some "kill raised")
  else (stopEffect ps t, [.terminate, .kill], none)

/-- `ExternalProcess.stop`: if a process exists, run the `try` body; any
`Exception` it raises is caught and logged (`logging.error`).  Result:
new process state, actions, and the exception that propagates out of
`stop` itself. -/
def stop (ps? : Option ProcSt) (b : StopBehavior) (t : ℚ) :
    Option ProcSt × List StopAct × Option String :=
  match ps? with
  | none => (none, [], none)
  | some ps =>
      match terminate_kill ps b t with
      | (ps', acts, none) => (some ps', acts, none)
      | (ps', acts, some _) => (some ps', acts ++ [.logError], none)

/-- The poll interval of `ExternalProcess.wait`: `min(timeout / 1000.0, .25)`. -/
def interval (timeout : ℚ) : ℚ := min (timeout / 1000) (1 / 4)

/-- The answer of the polling loop in `ExternalProcess.wait`:
`inl (c, t)` = `return result` with exit status `c` at time `t`;
`inr t` = `break` (deadline passed) at time `t`. -/
abbrev LoopRes := Sum (Code × ℚ) ℚ

/-- The `while True` polling loop of `ExternalProcess.wait`, with explicit
fuel (`none` = fuel exhausted; enough fuel is always supplied by `wait`).
Each iteration polls, returns on exit, breaks once the deadline has
passed, and otherwise sleeps one interval. -/
def waitLoop (ps : ProcSt) (endTime itv : ℚ) : Nat → ℚ → Option LoopRes
  | 0, _ => none
  | fuel + 1, t =>
      match pollAt ps t with
      | some c => some (.inl (c, t))
      | none =>
          if endTime ≤ t then some (.inr t)
          else waitLoop ps endTime itv fuel (t + itv)

/-- Fuel that outlasts the deadline: `⌈timeout / interval⌉ + 1` iterations. -/
def waitFuel (timeout itv : ℚ) : Nat := (⌈timeout / itv⌉).toNat + 1

/-- What a completed call to `ExternalProcess.wait` yields: the Python
return value (`none` = Python `None`), the process state afterwards, the
time of return, and whether `stop()` ran during the call. -/
structure WaitRet where
  ret : Option Code
  st : ProcSt
  t : ℚ
  stopped : Bool
deriving DecidableEq, Repr

/-- `ExternalProcess.wait(timeout=600)` started at time `t0`.
`if timeout:` (numeric truthiness) selects the polling loop; on `break`
the code calls `self.stop()` and then falls through to the unconditional
`self.process.wait()`; the function body has no final `return`, so those
paths return Python `None`.  `none` = the call never returns. -/
def wait (ps : ProcSt) (t0 : ℚ) (timeout : ℚ := 600) : Option WaitRet :=
  if timeout ≠ 0 then
    match waitLoop ps (t0 + timeout) (interval timeout)
        (waitFuel timeout (interval timeout)) t0 with
    | some (.inl (c, t)) => some ⟨some c, ps, t, false⟩
    | some (.inr t) =>
        match blockingWait (stopEffect ps t) t with
        | some (_, t2) => some ⟨none, stopEffect ps t, t2, true⟩
        | none => none
    | none => none
  else
    match blockingWait ps t0 with
    | some (_, t2) => some ⟨none, ps, t2, false⟩
    | none => none

/-- The `ExternalProcess` object: `self.process` is `None` until `open`. -/
structure ExternalProcess where
  process : Option ProcSt
deriving DecidableEq, Repr

/-- `ExternalProcess.is_running` observed at time `t`. -/
def is_running (ep : ExternalProcess) (t : ℚ) : Bool :=
  match ep.process with
  | none => false
  | some ps =>
      match pollAt ps t with
      | some _ => false
      | none => true

/-! ## `ExternalProcess.set_environ` -/

/-- A Python scalar as it appears in an environment context. -/
inductive Scalar where
  | str (s : String)
  | int (n : Int)
deriving DecidableEq, Repr

/-- A context value: a scalar, or a nested key-to-value mapping
(Python `dict`, kept as an association list in iteration order). -/
inductive PyVal where
  | scalar (v : Scalar)
  | dict (entries : List (String × Scalar))
deriving DecidableEq, Repr

/-- A single apostrophe (the default quote of Python `repr`). -/
def quoteCh : String := (Char.ofNat 39).toString

/-- A double quote (the quote `repr` switches to when the string holds an
apostrophe but no double quote). -/
def dquoteCh : String := (Char.ofNat 34).toString

/-- One character of Python `repr` on a string, given the chosen quote
`q`: a backslash and the chosen quote are backslash-escaped, and tab,
newline and carriage return print as their escape sequences.  (The
`\xXX`/`\uXXXX` escapes for other non-printable characters are outside
the model.) -/
def escapeChar (q : Char) (c : Char) : String :=
  if c = Char.ofNat 92 then "\\\\"
  else if c = q then "\\" ++ c.toString
  else if c = Char.ofNat 10 then "\\n"
  else if c = Char.ofNat 13 then "\\r"
  else if c = Char.ofNat 9 then "\\t"
  else c.toString

/-- Python `repr` on a string: single quotes by default; double quotes
when the string holds an apostrophe but no double quote; the body has
the chosen quote and backslashes escaped. -/
def strRepr (s : String) : String :=
  let cs := s.toList
  let q : Char :=
    if cs.contains (Char.ofNat 39) && !(cs.contains (Char.ofNat 34)) then
      Char.ofNat 34
    else Char.ofNat 39
  q.toString ++ String.join (cs.map (escapeChar q)) ++ q.toString

/-- Python `'{!r}'.format(v)` on a scalar (`repr`): strings are quoted
and escaped, integers print as plain decimals. -/
def reprScalar : Scalar → String
  | .str s => strRepr s
  | .int n => toString n

/-- `','.join('{!s}={!r}'.format(k, v) for (k, v) in val.items())`:
the nested-dict serialization of `set_environ`, in iteration order. -/
def serializeDict (entries : List (String × Scalar)) : String :=
  String.intercalate "," (entries.map fun p => p.1 ++ "=" ++ reprScalar p.2)

/-- What one `env[key] = ...` statement of `set_environ` stores in
`os.environ`: a dict is serialized to a single string and a string is
stored unchanged, but `os.environ` only accepts string values — a
non-string scalar makes the assignment raise an uncaught `TypeError`
(`none`; there is no `str(...)` coercion in the source). -/
def storeValue : PyVal → Option String
  | .dict es => some (serializeDict es)
  | .scalar (.str s) => some s
  | .scalar (.int _) => none

/-- The process environment (`os.environ`): string keys to string
values, as an association list. -/
abbrev Env := List (String × String)

/-- `env[key] = v` on a Python mapping: replace the binding if the key is
present, append it otherwise. -/
def envSet (e : Env) (k : String) (v : String) : Env :=
  if e.any (fun p => p.1 == k) then
    e.map fun p => if p.1 == k then (k, v) else p
  else e ++ [(k, v)]

/-- The process-wide mutable state seen by `set_environ`: `os.environ`. -/
structure World where
  osEnviron : Env
deriving DecidableEq, Repr

/-- The `for key, val in context.items()` loop of `set_environ`, writing
into `os.environ` in place.  `error e` = the `TypeError` raised by
`os.environ` on a non-string value, with `e` the environment at that
moment (every earlier entry already applied, the raise uncaught). -/
def overlayLoop : Env → List (String × PyVal) → Except Env Env
  | e, [] => .ok e
  | e, (k, v) :: rest =>
      match storeValue v with
      | some s => overlayLoop (envSet e k s) rest
      | none => .error e

/-- `ExternalProcess.set_environ(context=None)`: `env = os.environ` binds
the process-wide environment itself (no copy); with a context, each key
is written into it in place.  `ok (env, w)` returns the environment with
the mutated world (the same object); `error w` is the uncaught
`TypeError` a non-string scalar value provokes, with the world already
partially mutated. -/
def set_environ (w : World) (context : Option (List (String × PyVal))) :
    Except World (Env × World) :=
  match context with
  | none => .ok (w.osEnviron, w)
  | some ctx =>
      match overlayLoop w.osEnviron ctx with
      | .ok env => .ok (env, ⟨env⟩)
      | .error env => .error ⟨env⟩

/-! ## `Quokka.attach_monitors` -/

/-- One monitor spec from the configuration: the `class` identifier, its
constructor arguments, and its listener specs (listener identifiers with
their arguments folded in). -/
structure MonitorSpec where
  cls : String
  kargs : List String
  listeners : List String
deriving DecidableEq, Repr

/-- The lookup tables behind `ModuleImporter`: a monitor identifier
resolves to the `MONITOR_NAME` of its class (or fails to import), and a
listener identifier either imports or not. -/
structure Registries where
  monitors : List (String × String)
  listeners : List String
deriving DecidableEq, Repr

/-- A constructed monitor instance (only `ConsoleMonitor` specs construct
one): its constructor arguments, the listeners registered on it, and how
many times `start()` has been called on it. -/
structure MInstance where
  kargs : List String
  listeners : List String
  startCount : Nat
deriving DecidableEq, Repr

/-- The orchestrator state threaded through `attach_monitors`: the local
variable `monitor_instance` (`none` = unbound), the heap of constructed
instances (identified by construction index), `self.monitors` as a list
of instance ids, and the warnings logged so far. -/
structure AttachState where
  instVar : Option Nat
  instances : List MInstance
  recorded : List Nat
  warnings : List String
deriving DecidableEq, Repr

/-- The state before any monitor spec is processed. -/
def initialAttach : AttachState := ⟨none, [], [], []⟩

/-- How `attach_monitors` aborts: an uncaught `ImportError` from
`ModuleImporter`, or the `NameError` from using the unbound local
`monitor_instance`. -/
inductive AttachError where
  | importError (path : String)
  | nameError
deriving DecidableEq, Repr

/-- Apply `f` to the element at index `i` (identity out of range). -/
def listModify : List MInstance → Nat → (MInstance → MInstance) → List MInstance
  | [], _, _ => []
  | x :: xs, 0, f => f x :: xs
  | x :: xs, n + 1, f => x :: listModify xs n f

/-- The listener loop of `attach_monitors`: each listener identifier is
imported first (an unknown one raises `ImportError`), then registered on
`monitor_instance` (`NameError` if that local is unbound). -/
def attachListeners (reg : Registries) (st : AttachState) (iv : Option Nat) :
    List String → Except AttachError AttachState
  | [] => .ok st
  | l :: rest =>
      if reg.listeners.contains l then
        match iv with
        | none => .error .nameError
        | some id =>
            attachListeners reg
              { st with instances :=
                  listModify st.instances id fun m =>
                    { m with listeners := m.listeners ++ [l] } }
              (some id) rest
      else .error (.importError ("core.listeners." ++ l))

/-- The tail of one `attach_monitors` iteration after the kind dispatch:
attach the listeners, then `monitor_instance.daemon = True`,
`monitor_instance.start()` and `self.monitors.append(monitor_instance)` —
each of which needs `monitor_instance` to be bound. -/
def finishSpec (reg : Registries) (st : AttachState) (iv : Option Nat)
    (spec : MonitorSpec) : Except AttachError AttachState :=
  match attachListeners reg st iv spec.listeners with
  | .error e => .error e
  | .ok st' =>
      match iv with
      | none => .error .nameError
      | some id =>
          .ok { st' with
                instances := listModify st'.instances id fun m =>
                  { m with startCount := m.startCount + 1 },
                recorded := st'.recorded ++ [id] }

/-- One iteration of the `attach_monitors` loop: import the monitor class
(uncaught `ImportError` on failure), dispatch on `MONITOR_NAME`
(`ConsoleMonitor` constructs an instance, `WebSocketMonitor` is `pass`,
anything else logs a warning and `continue`s), then fall through to the
listener/start/record tail. -/
def attachSpec (reg : Registries) (st : AttachState) (spec : MonitorSpec) :
    Except AttachError AttachState :=
  match reg.monitors.lookup spec.cls with
  | none => .error (.importError ("core.monitors." ++ spec.cls))
  | some nm =>
      if nm = "ConsoleMonitor" then
        finishSpec reg
          { st with
            instances := st.instances ++ [⟨spec.kargs, [], 0⟩],
            instVar := some st.instances.length }
          (some st.instances.length) spec
      else if nm = "WebSocketMonitor" then
        finishSpec reg st st.instVar spec
      else
        .ok { st with warnings := st.warnings ++ [nm] }

/-- `Quokka.attach_monitors`, folded over the monitor specs starting from
state `st`; the first uncaught exception aborts the whole loop. -/
def attach_monitors (reg : Registries) (st : AttachState) :
    List MonitorSpec → Except AttachError AttachState
  | [] => .ok st
  | spec :: rest =>
      match attachSpec reg st spec with
      | .error e => .error e
      | .ok st' => attach_monitors reg st' rest

/-! ## `Quokka.detect_faults` -/

/-- A recorded monitor as `detect_faults` sees it: whether
`detected_fault()` reports a fault. -/
structure Monitor where
  detectedFault : Bool
deriving DecidableEq, Repr

/-- An observable action of `detect_faults`.  Monitors and loggers are
identified by their position in `self.monitors` / `self.loggers`. -/
inductive Ev where
  | getData (m : Nat)
  | addToBucket (l : Nat) (m : Nat)
  | addFault (l : Nat)
deriving DecidableEq, Repr

/-- The inner loop of the collection phase: deliver monitor `i`'s data to
every logger's bucket, in logger-attachment order. -/
def bucketRound (nL : Nat) (i : Nat) : List Ev :=
  (List.range nL).map fun l => Ev.addToBucket l i

/-- The collection phase of `detect_faults`: visit the monitors in order
(`i` is the position of the first one); a faulting monitor has its data
fetched once and delivered to every logger. -/
def collectLoop (nL : Nat) : Nat → List Monitor → List Ev
  | _, [] => []
  | i, m :: rest =>
      (if m.detectedFault then Ev.getData i :: bucketRound nL i else []) ++
        collectLoop nL (i + 1) rest

/-- `Quokka.detect_faults`: the collection loop over `self.monitors`
followed by one `add_fault()` per logger, in logger-attachment order. -/
def detect_faults (ms : List Monitor) (nL : Nat) : List Ev :=
  collectLoop nL 0 ms ++ (List.range nL).map Ev.addFault

/-- The monitor index carried by a `getData` event. -/
def evGetIdx : Ev → Option Nat
  | .getData i => some i
  | _ => none

/-! ## `Quokka.run_plugin` (plugin resolution) -/

/-- A Python exception as it crosses the `run_plugin` resolution step. -/
inductive PyExc where
  | importError (path : String)
  | pluginException (msg : String)
  | quokkaException (msg : String)
deriving DecidableEq, Repr

/-- `ModuleImporter(path).klass()`: resolve the dotted path in the import
table; a missing module raises `ImportError` (never `PluginException`). -/
def klass (table : List (String × String)) (path : String) :
    Except PyExc String :=
  match table.lookup path with
  | some c => .ok c
  | none => .error (.importError path)

/-- The resolution step of `Quokka.run_plugin`:
`try: ... ModuleImporter('core.plugins.' + plugin_class).klass()
except PluginException as msg: raise QuokkaException(...)`.
Only `PluginException` is caught and wrapped; every other exception
(in particular the `ImportError` that resolution actually raises)
propagates unchanged. -/
def run_plugin_resolve (table : List (String × String)) (pluginClass : String) :
    Except PyExc String :=
  match klass table ("core.plugins." ++ pluginClass) with
  | .ok c => .ok c
  | .error (.pluginException m) =>
      .error (.quokkaException ("Plugin initialization failed: " ++ m))
  | .error e => .error e

/-! ## Helper lemmas -/

lemma stop_default_effect (ps : ProcSt) (t : ℚ) :
    stop (some ps) ⟨false, false⟩ t =
      (some (stopEffect ps t), [StopAct.terminate, StopAct.kill], none) := rfl

/-- `ModuleImporter.klass` never raises `PluginException`, so the
`except PluginException` clause of `run_plugin` is dead code for the
resolution step: the handler never rewrites the error. -/
lemma run_plugin_resolve_eq (table : List (String × String)) (pc : String) :
    run_plugin_resolve table pc = klass table ("core.plugins." ++ pc) := by
  unfold run_plugin_resolve klass
  cases h : table.lookup ("core.plugins." ++ pc) <;> simp

lemma beq_symm_false {a b : String} (h : (a == b) = false) : (b == a) = false := by
  rw [beq_eq_false_iff_ne] at h ⊢
  exact fun hb => h hb.symm

lemma lookup_append {β : Type} (l₁ l₂ : List (String × β)) (k : String) :
    (l₁ ++ l₂).lookup k =
      match l₁.lookup k with
      | some v => some v
      | none => l₂.lookup k := by
  induction l₁ with
  | nil => rfl
  | cons p rest ih =>
      obtain ⟨a, b⟩ := p
      cases h : (k == a) with
      | true => simp [List.lookup, h]
      | false =>
          simp only [List.cons_append, List.lookup, h]
          exact ih

lemma lookup_none_of_any_false (e : Env) (k : String)
    (h : e.any (fun p => p.1 == k) = false) : e.lookup k = none := by
  induction e with
  | nil => rfl
  | cons p rest ih =>
      obtain ⟨a, b⟩ := p
      simp only [List.any_cons, Bool.or_eq_false_iff] at h
      have hk : (k == a) = false := beq_symm_false h.1
      simp only [List.lookup, hk]
      exact ih h.2

lemma lookup_map_replace (e : Env) (k : String) (v : String)
    (h : e.any (fun p => p.1 == k) = true) :
    (e.map fun p => if p.1 == k then (k, v) else p).lookup k = some v := by
  induction e with
  | nil => simp at h
  | cons p rest ih =>
      obtain ⟨a, b⟩ := p
      have hmap : (((a, b) :: rest).map fun p => if p.1 == k then (k, v) else p) =
          (if a == k then (k, v) else (a, b)) ::
            (rest.map fun p => if p.1 == k then (k, v) else p) := rfl
      rw [hmap]
      cases hp : (a == k) with
      | true => simp [List.lookup, hp]
      | false =>
          have hk : (k == a) = false := beq_symm_false hp
          simp only [List.any_cons, hp, Bool.false_or] at h
          rw [if_neg (by simp [hp])]
          simp only [List.lookup, hk]
          exact ih h

lemma lookup_map_replace_other (e : Env) (k k' : String) (v : String)
    (hne : k' ≠ k) :
    (e.map fun p => if p.1 == k then (k, v) else p).lookup k' = e.lookup k' := by
  induction e with
  | nil => rfl
  | cons p rest ih =>
      obtain ⟨a, b⟩ := p
      have hmap : (((a, b) :: rest).map fun p => if p.1 == k then (k, v) else p) =
          (if a == k then (k, v) else (a, b)) ::
            (rest.map fun p => if p.1 == k then (k, v) else p) := rfl
      rw [hmap]
      have h1 : (k' == k) = false := beq_eq_false_iff_ne.mpr hne
      cases hp : (a == k) with
      | true =>
          have ha : a = k := by simpa using hp
          have h2 : (k' == a) = false := by rw [ha]; exact h1
          rw [if_pos (by simp [hp])]
          simp only [List.lookup, h1, h2]
          exact ih
      | false =>
          rw [if_neg (by simp [hp])]
          cases hk' : (k' == a) with
          | true => simp [List.lookup, hk']
          | false =>
              simp only [List.lookup, hk']
              exact ih

lemma envSet_lookup_self (e : Env) (k : String) (v : String) :
    (envSet e k v).lookup k = some v := by
  unfold envSet
  by_cases h : e.any (fun p => p.1 == k)
  · rw [if_pos h]
    exact lookup_map_replace e k v h
  · rw [if_neg h, lookup_append]
    rw [lookup_none_of_any_false e k (by rwa [Bool.not_eq_true] at h)]
    simp [List.lookup]

lemma envSet_lookup_other (e : Env) (k k' : String) (v : String)
    (hne : k' ≠ k) : (envSet e k v).lookup k' = e.lookup k' := by
  unfold envSet
  by_cases h : e.any (fun p => p.1 == k)
  · rw [if_pos h]
    exact lookup_map_replace_other e k k' v hne
  · rw [if_neg h, lookup_append]
    cases hl : e.lookup k' with
    | some v' => rfl
    | none =>
        have h1 : (k' == k) = false := beq_eq_false_iff_ne.mpr hne
        simp [List.lookup, h1]

/-- Lookup after a completed overlay loop of `set_environ`: the last
context binding for a key wins (serialized/stored via `storeValue`);
keys not in the context read from the starting environment. -/
lemma overlayLoop_ok_lookup (ctx : List (String × PyVal)) (e env : Env)
    (h : overlayLoop e ctx = .ok env) (k : String) :
    env.lookup k =
      match ctx.reverse.lookup k with
      | some v => storeValue v
      | none => e.lookup k := by
  induction ctx generalizing e with
  | nil =>
      simp only [overlayLoop, Except.ok.injEq] at h
      subst h
      rfl
  | cons kv rest ih =>
      obtain ⟨a, b⟩ := kv
      simp only [overlayLoop] at h
      cases hs : storeValue b with
      | none => rw [hs] at h; exact absurd h (by simp)
      | some sv =>
          rw [hs] at h
          rw [ih (envSet e a sv) h, List.reverse_cons, lookup_append]
          cases hr : rest.reverse.lookup k with
          | some v => rfl
          | none =>
              cases hk : (k == a) with
              | true =>
                  have hk' : k = a := by simpa using hk
                  subst hk'
                  rw [envSet_lookup_self]
                  simp [List.lookup, hs]
              | false =>
                  have hk' : k ≠ a := by simpa using hk
                  rw [envSet_lookup_other _ _ _ _ hk']
                  simp [List.lookup, hk]

/-- The overlay loop stops with an uncaught `TypeError` at the first
non-string scalar value, the earlier entries already written: an integer
entry anywhere in the context turns the whole loop into the error of its
prefix (or the prefix's own earlier error). -/
lemma overlayLoop_int_break (pre : List (String × PyVal)) (e : Env)
    (k : String) (n : Int) (post : List (String × PyVal)) :
    overlayLoop e (pre ++ (k, PyVal.scalar (.int n)) :: post) =
      match overlayLoop e pre with
      | .ok e2 => .error e2
      | .error e2 => .error e2 := by
  induction pre generalizing e with
  | nil => rfl
  | cons kv rest ih =>
      obtain ⟨a, b⟩ := kv
      simp only [List.cons_append, overlayLoop]
      cases hs : storeValue b with
      | none => rfl
      | some sv => exact ih (envSet e a sv)

lemma listModify_congr (xs : List MInstance) (i : Nat)
    (f g : MInstance → MInstance) (h : ∀ m, f m = g m) :
    listModify xs i f = listModify xs i g := by
  induction xs generalizing i with
  | nil => rfl
  | cons x rest ih =>
      cases i with
      | zero => simp [listModify, h]
      | succ n => simp [listModify, ih]

lemma listModify_listModify (xs : List MInstance) (i : Nat)
    (f g : MInstance → MInstance) :
    listModify (listModify xs i f) i g = listModify xs i (fun m => g (f m)) := by
  induction xs generalizing i with
  | nil => rfl
  | cons x rest ih =>
      cases i with
      | zero => simp [listModify]
      | succ n => simp [listModify, ih]

lemma listModify_eta (xs : List MInstance) (i : Nat)
    (f : MInstance → MInstance) (h : ∀ m, f m = m) : listModify xs i f = xs := by
  induction xs generalizing i with
  | nil => rfl
  | cons x rest ih =>
      cases i with
      | zero => simp [listModify, h]
      | succ n => simp [listModify, ih]

/-- The listener loop on a bound `monitor_instance` with resolvable
listener identifiers: every listener is registered on instance `i`. -/
lemma attachListeners_ok (reg : Registries) :
    ∀ (L : List String) (st : AttachState) (i : Nat),
      (∀ l ∈ L, reg.listeners.contains l = true) →
      attachListeners reg st (some i) L =
        .ok { st with instances := listModify st.instances i fun m =>
                { m with listeners := m.listeners ++ L } } := by
  intro L
  induction L with
  | nil =>
      intro st i _
      simp only [attachListeners]
      congr 1
      rcases st with ⟨iv, insts, rec, warn⟩
      simp only [AttachState.mk.injEq, and_true, true_and]
      rw [listModify_eta]
      intro m; simp
  | cons l rest ih =>
      intro st i h
      have hl : reg.listeners.contains l = true := h l (by simp)
      simp only [attachListeners, hl, if_pos]
      rw [ih _ i (fun x hx => h x (by simp [hx]))]
      congr 1
      rcases st with ⟨iv, insts, rec, warn⟩
      simp only [AttachState.mk.injEq, and_true, true_and]
      rw [listModify_listModify]
      apply listModify_congr
      intro m
      simp

/-- The listener loop when `monitor_instance` is unbound: with resolvable
listeners it either does nothing (empty list) or raises `NameError` at
`add_listener`; either way the daemon/start tail then raises `NameError`. -/
lemma finishSpec_unbound (reg : Registries) (st : AttachState)
    (spec : MonitorSpec)
    (h : ∀ l ∈ spec.listeners, reg.listeners.contains l = true) :
    finishSpec reg st none spec = .error .nameError := by
  unfold finishSpec
  cases hL : spec.listeners with
  | nil => rfl
  | cons l rest =>
      have hl : reg.listeners.contains l = true := h l (by simp [hL])
      have hstep : attachListeners reg st none (l :: rest) = .error .nameError := by
        unfold attachListeners
        rw [if_pos hl]
      rw [hstep]

/-- Bound `monitor_instance` and resolvable listeners: the listener,
daemon/start and record tail of one iteration succeeds, extending
instance `i` and appending it to `self.monitors`. -/
lemma finishSpec_bound (reg : Registries) (st : AttachState) (i : Nat)
    (spec : MonitorSpec)
    (h : ∀ l ∈ spec.listeners, reg.listeners.contains l = true) :
    finishSpec reg st (some i) spec =
      .ok { st with
            instances := listModify st.instances i fun m =>
              { m with listeners := m.listeners ++ spec.listeners,
                       startCount := m.startCount + 1 },
            recorded := st.recorded ++ [i] } := by
  unfold finishSpec
  rw [attachListeners_ok reg spec.listeners st i h]
  show Except.ok _ = Except.ok _
  congr 1
  rcases st with ⟨iv, insts, recs, warns⟩
  simp only [AttachState.mk.injEq, and_true, true_and]
  rw [listModify_listModify]

/-- Unfolding one iteration of the `attach_monitors` loop. -/
lemma attach_monitors_cons (reg : Registries) (st : AttachState)
    (spec : MonitorSpec) (rest : List MonitorSpec) :
    attach_monitors reg st (spec :: rest) =
      match attachSpec reg st spec with
      | .error e => .error e
      | .ok st' => attach_monitors reg st' rest := rfl

/-- An imported monitor class of unrecognized kind: warning and `continue`. -/
lemma attachSpec_unknown (reg : Registries) (st : AttachState)
    (spec : MonitorSpec) (nm : String)
    (hres : reg.monitors.lookup spec.cls = some nm)
    (h1 : nm ≠ "ConsoleMonitor") (h2 : nm ≠ "WebSocketMonitor") :
    attachSpec reg st spec = .ok { st with warnings := st.warnings ++ [nm] } := by
  unfold attachSpec
  rw [hres]
  dsimp only
  rw [if_neg h1, if_neg h2]

/-- A `WebSocketMonitor` kind: the `pass` branch constructs nothing and
falls through to the tail with whatever `monitor_instance` holds. -/
lemma attachSpec_ws (reg : Registries) (st : AttachState) (spec : MonitorSpec)
    (hres : reg.monitors.lookup spec.cls = some "WebSocketMonitor") :
    attachSpec reg st spec = finishSpec reg st st.instVar spec := by
  unfold attachSpec
  rw [hres]
  dsimp only
  rw [if_neg (by decide : ¬("WebSocketMonitor" = "ConsoleMonitor")), if_pos rfl]

/-! ## detect_faults helper lemmas -/

lemma getData_notin_bucketRound (nL i j : Nat) :
    Ev.getData j ∉ bucketRound nL i := by
  simp [bucketRound]

lemma addFault_notin_bucketRound (nL i l : Nat) :
    Ev.addFault l ∉ bucketRound nL i := by
  simp [bucketRound]

lemma collect_no_addFault (nL : Nat) :
    ∀ (ms : List Monitor) (i l : Nat), Ev.addFault l ∉ collectLoop nL i ms := by
  intro ms
  induction ms with
  | nil => intro i l h; simp [collectLoop] at h
  | cons m rest ih =>
      intro i l h
      simp only [collectLoop, List.mem_append] at h
      rcases h with h | h
      · cases hm : m.detectedFault with
        | false => rw [hm] at h; simp at h
        | true =>
            rw [hm] at h
            simp only [if_true, List.mem_cons] at h
            rcases h with h | h
            · exact Ev.noConfusion h
            · exact addFault_notin_bucketRound nL i l h
      · exact ih (i + 1) l h

lemma collect_getData_lb (nL : Nat) :
    ∀ (ms : List Monitor) (i j : Nat), Ev.getData j ∈ collectLoop nL i ms → i ≤ j := by
  intro ms
  induction ms with
  | nil => intro i j h; simp [collectLoop] at h
  | cons m rest ih =>
      intro i j h
      simp only [collectLoop, List.mem_append] at h
      rcases h with h | h
      · cases hm : m.detectedFault with
        | false => rw [hm] at h; simp at h
        | true =>
            rw [hm] at h
            simp only [if_true, List.mem_cons] at h
            rcases h with h | h
            · injection h with h'; omega
            · exact absurd h (getData_notin_bucketRound nL i j)
      · have := ih (i + 1) j h; omega

lemma count_getData_bucketRound (nL i j : Nat) :
    (bucketRound nL i).count (Ev.getData j) = 0 :=
  List.count_eq_zero.mpr (getData_notin_bucketRound nL i j)

lemma count_getData_collect_zero (nL : Nat) (ms : List Monitor) (i j : Nat)
    (h : j < i) : (collectLoop nL i ms).count (Ev.getData j) = 0 := by
  refine List.count_eq_zero.mpr fun hmem => ?_
  have := collect_getData_lb nL ms i j hmem
  omega

lemma collect_count (nL : Nat) :
    ∀ (ms : List Monitor) (i j : Nat) (m : Monitor), ms[j]? = some m →
      (collectLoop nL i ms).count (Ev.getData (i + j)) =
        if m.detectedFault then 1 else 0 := by
  intro ms
  induction ms with
  | nil => intro i j m h; simp at h
  | cons m0 rest ih =>
      intro i j m h
      cases j with
      | zero =>
          simp only [List.getElem?_cons_zero, Option.some.injEq] at h
          subst h
          have hrec : (collectLoop nL (i + 1) rest).count (Ev.getData i) = 0 :=
            count_getData_collect_zero nL rest (i + 1) i (by omega)
          cases hm : m0.detectedFault with
          | false => simp [collectLoop, hm, List.count_append, hrec]
          | true =>
              simp [collectLoop, hm, List.count_append, hrec,
                count_getData_bucketRound, List.count_cons]
      | succ j' =>
          simp only [List.getElem?_cons_succ] at h
          have hrec := ih (i + 1) j' m h
          have harith : i + (j' + 1) = (i + 1) + j' := by omega
          have hne : Ev.getData (i + (j' + 1)) ≠ Ev.getData i := by
            intro hh; injection hh with hh'; omega
          cases hm : m0.detectedFault with
          | false =>
              simp only [collectLoop, hm, Bool.false_eq_true, if_false,
                List.nil_append, harith]
              exact hrec
          | true =>
              simp only [collectLoop, hm, if_true, List.cons_append,
                List.count_append, List.count_cons]
              rw [count_getData_bucketRound]
              simp only [harith, hrec, beq_eq_false_iff_ne.mpr hne]
              simp
              omega

lemma collect_segment (nL : Nat) :
    ∀ (ms : List Monitor) (i j : Nat) (m : Monitor), ms[j]? = some m →
      m.detectedFault = true →
      ∃ pre post, collectLoop nL i ms =
        pre ++ Ev.getData (i + j) :: bucketRound nL (i + j) ++ post := by
  intro ms
  induction ms with
  | nil => intro i j m h hf; simp at h
  | cons m0 rest ih =>
      intro i j m h hf
      cases j with
      | zero =>
          simp only [List.getElem?_cons_zero, Option.some.injEq] at h
          subst h
          refine ⟨[], collectLoop nL (i + 1) rest, ?_⟩
          simp [collectLoop, hf]
      | succ j' =>
          simp only [List.getElem?_cons_succ] at h
          obtain ⟨pre, post, hp⟩ := ih (i + 1) j' m h hf
          refine ⟨(if m0.detectedFault then Ev.getData i :: bucketRound nL i else []) ++ pre,
            post, ?_⟩
          have harith : i + (j' + 1) = (i + 1) + j' := by omega
          rw [collectLoop, harith, hp]
          simp [List.append_assoc]

lemma filterMap_bucketRound (nL i : Nat) :
    (bucketRound nL i).filterMap evGetIdx = [] := by
  simp [bucketRound, List.filterMap_map, evGetIdx]

lemma collect_pairwise (nL : Nat) :
    ∀ (ms : List Monitor) (i : Nat),
      ((collectLoop nL i ms).filterMap evGetIdx).Pairwise (· < ·) := by
  intro ms
  induction ms with
  | nil => intro i; simp [collectLoop]
  | cons m rest ih =>
      intro i
      have hlb : ∀ j ∈ (collectLoop nL (i + 1) rest).filterMap evGetIdx, i < j := by
        intro j hj
        simp only [List.mem_filterMap] at hj
        obtain ⟨e, he, hge⟩ := hj
        cases e with
        | getData x =>
            simp only [evGetIdx, Option.some.injEq] at hge
            have := collect_getData_lb nL rest (i + 1) x he
            omega
        | addToBucket l x => simp [evGetIdx] at hge
        | addFault l => simp [evGetIdx] at hge
      cases hm : m.detectedFault with
      | false =>
          simp only [collectLoop, hm, Bool.false_eq_true, if_false, List.nil_append]
          exact ih (i + 1)
      | true =>
          simp only [collectLoop, hm, if_true, List.cons_append,
            List.filterMap_cons, evGetIdx]
          rw [List.filterMap_append, filterMap_bucketRound, List.nil_append]
          exact List.pairwise_cons.mpr ⟨hlb, ih (i + 1)⟩

lemma count_addFault_range (nL l : Nat) :
    ((List.range nL).map Ev.addFault).count (Ev.addFault l) =
      if l < nL then 1 else 0 := by
  have hinj : Function.Injective Ev.addFault := by
    intro a b h; injection h
  rw [List.count_map_of_injective _ _ hinj]
  by_cases h : l < nL
  · rw [if_pos h]
    exact List.count_eq_one_of_mem (List.nodup_range nL) (List.mem_range.mpr h)
  · rw [if_neg h]
    exact List.count_eq_zero.mpr (fun hm => h (List.mem_range.mp hm))

lemma count_getData_faultmap (nL j : Nat) :
    ((List.range nL).map Ev.addFault).count (Ev.getData j) = 0 := by
  refine List.count_eq_zero.mpr fun hm => ?_
  simp at hm

/-! ## Claim C3 -/

/-- C3: in `detect_faults`, every faulting monitor has its fault-data
record fetched exactly once and delivered to every recorded logger's
bucket, loggers in attachment order (the contiguous
`getData j :: bucketRound nL j` segment); monitors are visited in
attachment order (the `getData` indices are strictly increasing); no
`add_fault` finalize call occurs in the collection phase — they all come
after it, exactly once per logger, in logger-attachment order. -/
theorem c3_detect_faults_spec (ms : List Monitor) (nL : Nat) :
    ∃ A, detect_faults ms nL = A ++ (List.range nL).map Ev.addFault ∧
      (∀ l, Ev.addFault l ∉ A) ∧
      (∀ j m, ms[j]? = some m → m.detectedFault = true →
        (detect_faults ms nL).count (Ev.getData j) = 1 ∧
        ∃ pre post, A = pre ++ Ev.getData j :: bucketRound nL j ++ post) ∧
      (∀ j m, ms[j]? = some m → m.detectedFault = false →
        Ev.getData j ∉ detect_faults ms nL) ∧
      ((A.filterMap evGetIdx).Pairwise (· < ·)) ∧
      (∀ l, (detect_faults ms nL).count (Ev.addFault l) = if l < nL then 1 else 0) := by
  refine ⟨collectLoop nL 0 ms, rfl, fun l => collect_no_addFault nL ms 0 l,
    fun j m hj hf => ⟨?_, ?_⟩, fun j m hj hf => ?_, collect_pairwise nL ms 0, fun l => ?_⟩
  · rw [detect_faults, List.count_append, count_getData_faultmap]
    have := collect_count nL ms 0 j m hj
    rw [Nat.zero_add] at this
    rw [this, hf]
    simp
  · have := collect_segment nL ms 0 j m hj hf
    rwa [Nat.zero_add] at this
  · intro hmem
    rw [detect_faults, List.mem_append] at hmem
    rcases hmem with hmem | hmem
    · have h0 := collect_count nL ms 0 j m hj
      rw [Nat.zero_add, hf] at h0
      simp only [Bool.false_eq_true, if_false] at h0
      exact absurd hmem (List.count_eq_zero.mp h0)
    · simp at hmem
  · rw [detect_faults, List.count_append,
      List.count_eq_zero.mpr (collect_no_addFault nL ms 0 l),
      count_addFault_range]
    simp

theorem c3_witness : (detect_faults [⟨true⟩] 1).count (Ev.getData 0) = 1 := by
  obtain ⟨A, hA, h1, h2, h3, h4, h5⟩ := c3_detect_faults_spec [⟨true⟩] 1
  exact (h2 0 ⟨true⟩ rfl rfl).1

/-! ## Claim C4 -/

/-- C4 counterexample: an unrecognized monitor *identifier* (`"bogus"`,
not importable) makes `attach_monitors` abort with an uncaught
`ImportError`; the recognized `"console"` spec after it never attaches.
The claim as stated (warn, skip and continue for unrecognized
identifiers too) is false here. -/
theorem c4_counterexample :
    attach_monitors ⟨[("console", "ConsoleMonitor")], []⟩ initialAttach
        [⟨"bogus", [], []⟩, ⟨"console", [], []⟩] =
      .error (.importError "core.monitors.bogus") := rfl

/-- C4 (amended): only an unrecognized monitor *kind* (an imported class
whose `MONITOR_NAME` is neither `ConsoleMonitor` nor `WebSocketMonitor`)
is reported as a warning and skipped, with the remaining specs processed
from an otherwise unchanged state; an unrecognized *identifier* raises an
uncaught `ImportError` that aborts `attach_monitors`. -/
theorem c4_unknown_kind_amended (reg : Registries) (st : AttachState)
    (spec : MonitorSpec) (rest : List MonitorSpec) (nm : String)
    (hres : reg.monitors.lookup spec.cls = some nm)
    (h1 : nm ≠ "ConsoleMonitor") (h2 : nm ≠ "WebSocketMonitor") :
    attach_monitors reg st (spec :: rest) =
      attach_monitors reg { st with warnings := st.warnings ++ [nm] } rest := by
  rw [attach_monitors_cons, attachSpec_unknown reg st spec nm hres h1 h2]

theorem c4_witness :
    attach_monitors ⟨[("x", "Weird")], []⟩ initialAttach [⟨"x", [], []⟩] =
      attach_monitors ⟨[("x", "Weird")], []⟩ ⟨none, [], [], ["Weird"]⟩ [] :=
  c4_unknown_kind_amended ⟨[("x", "Weird")], []⟩ initialAttach ⟨"x", [], []⟩ []
    "Weird" rfl (by decide) (by decide)

/-! ## Claim C5 -/

/-- C5 counterexample: with a context present (here a string-valued one,
where the overlay succeeds), `set_environ` mutates the process-wide
environment (`env = os.environ` binds, it does not copy): the world
after the call differs from the world before, and equals the returned
environment. -/
theorem c5_counterexample :
    set_environ ⟨[("HOME", "h")]⟩ (some [("X", PyVal.scalar (.str "1"))]) =
      .ok ([("HOME", "h"), ("X", "1")], ⟨[("HOME", "h"), ("X", "1")]⟩) ∧
    (⟨[("HOME", "h"), ("X", "1")]⟩ : World) ≠ ⟨[("HOME", "h")]⟩ :=
  ⟨rfl, by decide⟩

/-- C5 (amended): with no context, `set_environ` returns the inherited
environment unmodified and leaves the world unchanged.  With a context
it overlays each context key onto `os.environ` *itself*: when the
overlay completes, the process-wide environment after the call is the
very environment returned (mutated in place, not a copy), where the last
context binding for a key wins and other keys read the inherited value;
a non-string scalar value makes the underlying `os.environ` assignment
raise an uncaught `TypeError` mid-loop, with the process-wide
environment already holding every entry written before the raise. -/
theorem c5_set_environ_amended (w : World) :
    (set_environ w none = .ok (w.osEnviron, w)) ∧
    (∀ ctx env w2, set_environ w (some ctx) = .ok (env, w2) →
      w2 = ⟨env⟩ ∧
      ∀ k, env.lookup k =
        match ctx.reverse.lookup k with
        | some v => storeValue v
        | none => w.osEnviron.lookup k) ∧
    (∀ pre k n post,
      set_environ w (some (pre ++ (k, PyVal.scalar (.int n)) :: post)) =
        match overlayLoop w.osEnviron pre with
        | .ok e2 => .error ⟨e2⟩
        | .error e2 => .error ⟨e2⟩) := by
  refine ⟨rfl, fun ctx env w2 h => ?_, fun pre k n post => ?_⟩
  · unfold set_environ at h
    dsimp only at h
    cases ho : overlayLoop w.osEnviron ctx with
    | error e2 => rw [ho] at h; exact absurd h (by simp)
    | ok env0 =>
        rw [ho] at h
        simp only [Except.ok.injEq, Prod.mk.injEq] at h
        obtain ⟨h1, h2⟩ := h
        constructor
        · rw [← h1]
          exact h2.symm
        · intro k
          rw [← h1]
          exact overlayLoop_ok_lookup ctx w.osEnviron env0 ho k
  · unfold set_environ
    dsimp only
    rw [overlayLoop_int_break]
    cases ho : overlayLoop w.osEnviron pre <;> rfl

theorem c5_witness :
    List.lookup "X" [("HOME", "h"), ("X", "1")] = some "1" := by
  have h := ((c5_set_environ_amended ⟨[("HOME", "h")]⟩).2.1
    [("X", PyVal.scalar (.str "1"))] [("HOME", "h"), ("X", "1")]
    ⟨[("HOME", "h"), ("X", "1")]⟩ rfl).2 "X"
  exact h.trans rfl

/-! ## Claim C6 -/

/-- C6 counterexample: a non-string, non-mapping context value is not
coerced to its string form — the `os.environ` assignment raises an
uncaught `TypeError` instead, so `set_environ` on `X = 5` aborts and
stores nothing. -/
theorem c6_counterexample :
    set_environ ⟨[]⟩ (some [("X", PyVal.scalar (.int 5))]) = .error ⟨[]⟩ ∧
    storeValue (PyVal.scalar (.int 5)) = none :=
  ⟨rfl, rfl⟩

lemma strRepr_plain : strRepr "ab" = quoteCh ++ "ab" ++ quoteCh := rfl

lemma strRepr_quote_switch :
    strRepr quoteCh = dquoteCh ++ quoteCh ++ dquoteCh := rfl

/-- C6 (amended): a nested mapping value is serialized in iteration
order into the single string `k=v,k2=v2,...` where each `v` is the
Python `repr` of the value (plain decimal for integers, so
`{"X": {"a":1,"b":2}}` still yields `"a=1,b=2"`; quoted and escaped for
strings); a string value is stored unchanged; a non-string, non-mapping
value is *not* coerced — the `os.environ` assignment raises an uncaught
`TypeError`; and the stored value is determined by the context entry
alone, so two successful invocations with the same context store
identical values regardless of the ambient environment. -/
theorem c6_serialize_amended :
    (∀ (w : World) (k : String) (es : List (String × Int)),
      ∃ env,
        set_environ w
            (some [(k, PyVal.dict (es.map fun p => (p.1, Scalar.int p.2)))]) =
          .ok (env, ⟨env⟩) ∧
        env.lookup k = some (String.intercalate ","
          (es.map fun p => p.1 ++ "=" ++ toString p.2))) ∧
    (∀ (w : World) (k s : String),
      ∃ env,
        set_environ w (some [(k, PyVal.scalar (.str s))]) = .ok (env, ⟨env⟩) ∧
        env.lookup k = some s) ∧
    (∀ (w : World) (k : String) (n : Int),
      set_environ w (some [(k, PyVal.scalar (.int n))]) = .error w) ∧
    (∀ (w w2 : World) (k : String) (v : PyVal) (env1 env2 : Env),
      set_environ w (some [(k, v)]) = .ok (env1, ⟨env1⟩) →
      set_environ w2 (some [(k, v)]) = .ok (env2, ⟨env2⟩) →
      env1.lookup k = env2.lookup k) := by
  refine ⟨fun w k es => ?_, fun w k s => ?_, fun w k n => rfl,
    fun w w2 k v env1 env2 h1 h2 => ?_⟩
  · refine ⟨envSet w.osEnviron k
      (serializeDict (es.map fun p => (p.1, Scalar.int p.2))), ?_, ?_⟩
    · rfl
    rw [envSet_lookup_self]
    simp only [serializeDict, List.map_map]
    rw [show ((fun p : String × Scalar => p.1 ++ "=" ++ reprScalar p.2) ∘
        (fun p : String × Int => (p.1, Scalar.int p.2))) =
        (fun p : String × Int => p.1 ++ "=" ++ toString p.2) from
      funext fun p => rfl]
  · exact ⟨envSet w.osEnviron k s, rfl, by rw [envSet_lookup_self]⟩
  · unfold set_environ at h1 h2
    dsimp only at h1 h2
    cases hs : storeValue v with
    | none =>
        rw [show overlayLoop w.osEnviron [(k, v)] = .error w.osEnviron from by
          unfold overlayLoop; rw [hs]] at h1
        exact absurd h1 (by simp)
    | some sv =>
        have ho : ∀ e : Env, overlayLoop e [(k, v)] = .ok (envSet e k sv) := by
          intro e
          unfold overlayLoop
          rw [hs]
          rfl
        rw [ho] at h1
        rw [ho] at h2
        simp only [Except.ok.injEq, Prod.mk.injEq] at h1 h2
        obtain ⟨h1a, -⟩ := h1
        obtain ⟨h2a, -⟩ := h2
        rw [← h1a, ← h2a, envSet_lookup_self, envSet_lookup_self]

theorem c6_witness :
    List.lookup "X" [("A", "x"), ("X", "1")] = List.lookup "X" [("X", "1")] :=
  (c6_serialize_amended).2.2.2 ⟨[("A", "x")]⟩ ⟨[]⟩ "X"
    (PyVal.scalar (.str "1")) [("A", "x"), ("X", "1")] [("X", "1")] rfl rfl

/-! ## Claim C7 -/

/-- C7 (code bug): resolving a nonexistent plugin identifier raises a raw
`ImportError` that propagates uncaught — the `except PluginException`
clause meant to wrap resolution failures in a descriptive
`QuokkaException` can never fire, because `ModuleImporter` raises
`ImportError`, not `PluginException`. -/
theorem c7_resolution_bug :
    run_plugin_resolve [] "bogus" =
      .error (.importError "core.plugins.bogus") ∧
    ∀ m, (Except.error (PyExc.importError "core.plugins.bogus") :
        Except PyExc String) ≠ .error (.quokkaException m) :=
  ⟨rfl, fun _ h => by injection h with h'; exact PyExc.noConfusion h'⟩

/-! ## Claim C8 -/

/-- C8 counterexample: when `terminate()` raises, the forceful `kill()`
is never attempted (the exception jumps straight to the `except` clause),
so `stop()` does not always perform "termination followed immediately by
a forceful kill". -/
theorem c8_counterexample :
    StopAct.kill ∉ (stop (some ⟨⟨none, 0⟩, none⟩) ⟨true, false⟩ 0).2.1 := by
  decide

/-- C8 (amended): `stop()` never propagates an exception; with no process
it does nothing; with a process it always attempts `terminate()`, and
attempts `kill()` immediately after whenever `terminate()` did not raise;
any error raised during either step is caught and logged. -/
theorem c8_stop_amended (ps? : Option ProcSt) (b : StopBehavior) (t : ℚ) :
    ((stop ps? b t).2.2 = none) ∧
    (ps? = none → (stop ps? b t).2.1 = []) ∧
    (∀ ps, ps? = some ps → StopAct.terminate ∈ (stop ps? b t).2.1) ∧
    (∀ ps, ps? = some ps → b.terminateRaises = false →
      (stop ps? b t).2.1.take 2 = [StopAct.terminate, StopAct.kill]) ∧
    (∀ ps, ps? = some ps → b.terminateRaises = true ∨ b.killRaises = true →
      StopAct.logError ∈ (stop ps? b t).2.1) := by
  obtain ⟨bt, bk⟩ := b
  cases ps? with
  | none => simp [stop]
  | some ps => cases bt <;> cases bk <;> simp [stop, terminate_kill]

theorem c8_witness :
    StopAct.terminate ∈ (stop (some ⟨⟨none, 0⟩, none⟩) ⟨false, false⟩ 0).2.1 :=
  (c8_stop_amended (some ⟨⟨none, 0⟩, none⟩) ⟨false, false⟩ 0).2.2.1
    ⟨⟨none, 0⟩, none⟩ rfl

/-! ## Claim C10 -/

/-- C10 counterexample: a `WebSocketMonitor` spec that is *not* first in
the list still aborts with `NameError` when every preceding spec was
skipped (here: an unrecognized kind), because no monitor instance was
ever constructed — the claim's "otherwise the previously constructed
monitor instance is reused" fails here. -/
theorem c10_counterexample :
    attach_monitors ⟨[("skip", "BogusKind"), ("ws", "WebSocketMonitor")], []⟩
        initialAttach [⟨"skip", [], []⟩, ⟨"ws", [], []⟩] =
      .error .nameError := rfl

/-- C10 (amended): a `WebSocketMonitor` spec constructs no instance and
falls through to listener registration and start.  If no monitor
instance has been constructed by an earlier iteration
(`monitor_instance` unbound), the run aborts with an unbound-variable
`NameError`; otherwise the most recently constructed instance is reused:
the spec's listeners are added to it, it is started again, and it is
appended to `self.monitors` a second time.  (Resolvable listener
identifiers are assumed; an unresolvable one raises `ImportError`
first.) -/
theorem c10_websocket_amended (reg : Registries) (st : AttachState)
    (spec : MonitorSpec) (rest : List MonitorSpec)
    (hres : reg.monitors.lookup spec.cls = some "WebSocketMonitor")
    (hL : ∀ l ∈ spec.listeners, reg.listeners.contains l = true) :
    (st.instVar = none →
      attach_monitors reg st (spec :: rest) = .error .nameError) ∧
    (∀ i, st.instVar = some i →
      attach_monitors reg st (spec :: rest) =
        attach_monitors reg
          { st with
            instances := listModify st.instances i fun m =>
              { m with listeners := m.listeners ++ spec.listeners,
                       startCount := m.startCount + 1 },
            recorded := st.recorded ++ [i] } rest) := by
  constructor
  · intro hiv
    rw [attach_monitors_cons, attachSpec_ws reg st spec hres, hiv,
      finishSpec_unbound reg st spec hL]
  · intro i hiv
    rw [attach_monitors_cons, attachSpec_ws reg st spec hres, hiv,
      finishSpec_bound reg st i spec hL]
    rw [hiv]

theorem c10_witness :
    attach_monitors ⟨[("ws", "WebSocketMonitor")], []⟩
        ⟨some 0, [⟨[], [], 1⟩], [0], []⟩ [⟨"ws", [], []⟩] =
      attach_monitors ⟨[("ws", "WebSocketMonitor")], []⟩
        ⟨some 0, [⟨[], [], 2⟩], [0, 0], []⟩ [] :=
  (c10_websocket_amended ⟨[("ws", "WebSocketMonitor")], []⟩
      ⟨some 0, [⟨[], [], 1⟩], [0], []⟩ ⟨"ws", [], []⟩ [] rfl
      (by intro l hl; simp at hl)).2 0 rfl

/-! wait helper lemmas -/

lemma pollAt_effExit_none (ps : ProcSt) (t : ℚ) (h : effExit ps = none) :
    pollAt ps t = none := by
  unfold pollAt
  rw [h]

lemma pollAt_some_of_not_killed (ps : ProcSt) (t : ℚ) (c : Code)
    (hk : ps.killedAt = none) (h : pollAt ps t = some c) :
    c = ps.proc.natCode ∧ ∃ te, ps.proc.natExit = some te ∧ te ≤ t := by
  unfold pollAt effExit at h
  rcases ps with ⟨⟨ne, nc⟩, ka⟩
  cases ka with
  | some tk => simp at hk
  | none =>
      cases ne with
      | none => simp at h
      | some te =>
          simp only at h
          by_cases hle : te ≤ t
          · rw [if_pos hle] at h
            injection h with h'
            exact ⟨h'.symm, te, rfl, hle⟩
          · rw [if_neg hle] at h
            exact absurd h (by simp)

lemma pollAt_none_lt (ps : ProcSt) (t te : ℚ)
    (hk : ps.killedAt = none) (hx : ps.proc.natExit = some te)
    (h : pollAt ps t = none) : t < te := by
  unfold pollAt effExit at h
  rcases ps with ⟨⟨ne, nc⟩, ka⟩
  simp only at hk hx
  subst hk
  subst hx
  simp only at h
  by_cases hle : te ≤ t
  · rw [if_pos hle] at h; exact absurd h (by simp)
  · exact lt_of_not_le hle

lemma effExit_stopEffect (ps : ProcSt) (t : ℚ)
    (hk : ps.killedAt = none) (hp : pollAt ps t = none) :
    effExit (stopEffect ps t) = some (t, killCode) := by
  unfold stopEffect
  rw [hk]
  rcases ps with ⟨⟨ne, nc⟩, ka⟩
  cases ne with
  | none => rfl
  | some te =>
      have hlt : t < te := pollAt_none_lt _ t te hk rfl hp
      show effExit ⟨⟨some te, nc⟩, some t⟩ = some (t, killCode)
      unfold effExit
      simp only
      rw [if_neg (by linarith : ¬ te ≤ t)]

lemma blockingWait_poll (ps : ProcSt) (t t2 : ℚ) (c : Code)
    (h : blockingWait ps t = some (c, t2)) : pollAt ps t2 = some c := by
  unfold blockingWait at h
  cases he : effExit ps with
  | none => rw [he] at h; exact absurd h (by simp)
  | some p =>
      obtain ⟨te, c'⟩ := p
      rw [he] at h
      simp only [Option.some.injEq, Prod.mk.injEq] at h
      obtain ⟨h1, h2⟩ := h
      unfold pollAt
      rw [he]
      show (if te ≤ t2 then some c' else none) = some c
      rw [if_pos (by rw [← h2]; exact le_max_right t te), h1]

lemma waitLoop_inl (ps : ProcSt) (e i : ℚ) :
    ∀ (fuel : Nat) (t tr : ℚ) (c : Code),
      waitLoop ps e i fuel t = some (.inl (c, tr)) → pollAt ps tr = some c := by
  intro fuel
  induction fuel with
  | zero => intro t tr c h; exact absurd h (by simp [waitLoop])
  | succ n ih =>
      intro t tr c h
      unfold waitLoop at h
      cases hp : pollAt ps t with
      | some c' =>
          rw [hp] at h
          simp only [Option.some.injEq] at h
          obtain ⟨h1, h2⟩ : c' = c ∧ t = tr := by
            injection h with h'
            injection h' with h1 h2
            exact ⟨h1, h2⟩
          subst h1; subst h2
          exact hp
      | none =>
          rw [hp] at h
          by_cases hle : e ≤ t
          · rw [if_pos hle] at h
            exact absurd h (by simp)
          · rw [if_neg hle] at h
            exact ih (t + i) tr c h

lemma waitLoop_inr (ps : ProcSt) (e i : ℚ) :
    ∀ (fuel : Nat) (t tb : ℚ),
      waitLoop ps e i fuel t = some (.inr tb) →
        pollAt ps tb = none ∧ e ≤ tb := by
  intro fuel
  induction fuel with
  | zero => intro t tb h; exact absurd h (by simp [waitLoop])
  | succ n ih =>
      intro t tb h
      unfold waitLoop at h
      cases hp : pollAt ps t with
      | some c' =>
          rw [hp] at h
          exact absurd h (by simp)
      | none =>
          rw [hp] at h
          by_cases hle : e ≤ t
          · rw [if_pos hle] at h
            simp only [Option.some.injEq] at h
            have : t = tb := by injection h
            subst this
            exact ⟨hp, hle⟩
          · rw [if_neg hle] at h
            exact ih (t + i) tb h

lemma waitLoop_total (ps : ProcSt) (e i : ℚ) :
    ∀ (fuel : Nat) (t : ℚ), e ≤ t + (fuel : ℚ) * i →
      (waitLoop ps e i (fuel + 1) t).isSome = true := by
  intro fuel
  induction fuel with
  | zero =>
      intro t hf
      unfold waitLoop
      cases hp : pollAt ps t with
      | some c => rfl
      | none =>
          rw [if_pos (by push_cast at hf; linarith)]
          rfl
  | succ n ih =>
      intro t hf
      unfold waitLoop
      cases hp : pollAt ps t with
      | some c => rfl
      | none =>
          by_cases hle : e ≤ t
          · rw [if_pos hle]; rfl
          · rw [if_neg hle]
            exact ih (t + i) (by push_cast at hf ⊢; linarith)

lemma interval_pos (timeout : ℚ) (ht : 0 < timeout) : 0 < interval timeout :=
  lt_min (by positivity) (by norm_num)

lemma ceil_toNat_mul (x i : ℚ) (hx : 0 < x) (hi : 0 < i) :
    x ≤ ((⌈x / i⌉.toNat : ℕ) : ℚ) * i := by
  have hdiv : 0 < x / i := div_pos hx hi
  have h2 : (0 : ℤ) ≤ ⌈x / i⌉ := Int.ceil_nonneg hdiv.le
  have h3 : ((⌈x / i⌉.toNat : ℕ) : ℚ) = ((⌈x / i⌉ : ℤ) : ℚ) := by
    exact_mod_cast congrArg (fun z : ℤ => (z : ℚ)) (Int.toNat_of_nonneg h2)
  rw [h3]
  calc x = (x / i) * i := (div_mul_cancel₀ x (ne_of_gt hi)).symm
    _ ≤ ((⌈x / i⌉ : ℤ) : ℚ) * i :=
        mul_le_mul_of_nonneg_right (Int.le_ceil _) hi.le

lemma waitLoop_noexit (ps : ProcSt) (e i : ℚ) (he : effExit ps = none)
    (hi : 0 < i) :
    ∀ (fuel : Nat) (t : ℚ), e ≤ t + (fuel : ℚ) * i →
      waitLoop ps e i (fuel + 1) t =
        some (.inr (t + i * ((⌈(e - t) / i⌉.toNat : ℕ) : ℚ))) := by
  have hstop : ∀ t : ℚ, e ≤ t → t + i * ((⌈(e - t) / i⌉.toNat : ℕ) : ℚ) = t := by
    intro t hle
    have h1 : (e - t) / i ≤ 0 := by
      rw [div_nonpos_iff]
      right
      constructor <;> linarith
    have h2 : ⌈(e - t) / i⌉ ≤ 0 := Int.ceil_le.mpr (by exact_mod_cast h1)
    have h3 : (⌈(e - t) / i⌉).toNat = 0 := Int.toNat_eq_zero.mpr h2
    rw [h3]
    push_cast
    ring
  intro fuel
  induction fuel with
  | zero =>
      intro t hf
      push_cast at hf
      have hle : e ≤ t := by linarith
      unfold waitLoop
      rw [pollAt_effExit_none ps t he, if_pos hle, hstop t hle]
  | succ n ih =>
      intro t hf
      by_cases hle : e ≤ t
      · unfold waitLoop
        rw [pollAt_effExit_none ps t he, if_pos hle, hstop t hle]
      · unfold waitLoop
        rw [pollAt_effExit_none ps t he, if_neg hle]
        rw [ih (t + i) (by push_cast at hf ⊢; linarith)]
        have hipos : i ≠ 0 := ne_of_gt hi
        have hq : (e - (t + i)) / i = (e - t) / i - 1 := by
          field_simp
          ring
        have hone : 1 ≤ ⌈(e - t) / i⌉ := by
          have hpos : 0 < (e - t) / i := div_pos (by linarith) hi
          have := Int.ceil_pos.mpr hpos
          omega
        have hceil : ⌈(e - (t + i)) / i⌉ = ⌈(e - t) / i⌉ - 1 := by
          rw [hq]
          rw [show ((1 : ℚ)) = ((1 : ℤ) : ℚ) from rfl]
          exact Int.ceil_sub_int _ 1
        have htn : (⌈(e - t) / i⌉).toNat = (⌈(e - (t + i)) / i⌉).toNat + 1 := by
          rw [hceil]; omega
        rw [htn]
        push_cast
        ring_nf

/-- With `timeout` truthy and positive and a process that never exits on
its own (and was not previously killed), `wait` runs the full polling
loop, breaks at the first poll instant past the deadline, kills the
process there and returns Python `None` at that instant. -/
lemma wait_noexit (ps : ProcSt) (t0 timeout : ℚ) (he : effExit ps = none)
    (ht : 0 < timeout) :
    wait ps t0 timeout =
      some ⟨none,
        stopEffect ps (t0 + interval timeout *
          ((⌈timeout / interval timeout⌉.toNat : ℕ) : ℚ)),
        t0 + interval timeout * ((⌈timeout / interval timeout⌉.toNat : ℕ) : ℚ),
        true⟩ := by
  have hi : 0 < interval timeout := interval_pos timeout ht
  have hk : ps.killedAt = none := by
    rcases ps with ⟨⟨ne, nc⟩, ka⟩
    cases ne with
    | none =>
        cases ka with
        | none => rfl
        | some tk => simp [effExit] at he
    | some te =>
        cases ka with
        | none => rfl
        | some tk =>
            unfold effExit at he
            simp only at he
            split at he <;> simp at he
  unfold wait
  rw [if_pos (ne_of_gt ht)]
  have hfuel : t0 + timeout ≤ t0 +
      ((((⌈timeout / interval timeout⌉).toNat : ℕ)) : ℚ) * interval timeout := by
    have := ceil_toNat_mul timeout (interval timeout) ht hi
    linarith
  have hloop := waitLoop_noexit ps (t0 + timeout) (interval timeout) he hi
    ((⌈timeout / interval timeout⌉).toNat) t0 hfuel
  rw [show waitFuel timeout (interval timeout) =
    (⌈timeout / interval timeout⌉).toNat + 1 from rfl]
  rw [add_sub_cancel_left] at hloop
  rw [hloop]
  set tb := t0 + interval timeout * ((⌈timeout / interval timeout⌉.toNat : ℕ) : ℚ)
    with htb
  have hpoll : pollAt ps tb = none := pollAt_effExit_none ps tb he
  have heff : effExit (stopEffect ps tb) = some (tb, killCode) :=
    effExit_stopEffect ps tb hk hpoll
  have hbw : blockingWait (stopEffect ps tb) tb = some (killCode, tb) := by
    unfold blockingWait
    rw [heff]
    show some (killCode, max tb tb) = some (killCode, tb)
    rw [max_self]
  dsimp only
  rw [hbw]

/-- C1 (amended): for `timeout > 0` on a not-previously-killed process,
`wait` always returns.  If the process exits by the loop's last poll
instant, the exit code is returned directly and `stop()` never runs;
otherwise `stop()` runs, the final unconditional blocking wait runs
(the state records the kill at the return instant), and the call
returns Python `None` — not the exit status the forced kill produced,
because the `while` loop's `return result` is the only return statement
in the function. -/
theorem c1_wait_amended (ps : ProcSt) (t0 timeout : ℚ)
    (hk : ps.killedAt = none) (ht : 0 < timeout) :
    ∃ w, wait ps t0 timeout = some w ∧
      (w.ret = none ↔ w.stopped = true) ∧
      (w.stopped = true →
        w.ret = none ∧ w.st = { ps with killedAt := some w.t } ∧
          t0 + timeout ≤ w.t) ∧
      (w.stopped = false → w.ret = some ps.proc.natCode ∧ w.st = ps) ∧
      (∀ te, ps.proc.natExit = some te → te ≤ t0 + timeout →
        w.stopped = false) ∧
      (ps.proc.natExit = none → w.stopped = true) := by
  have hi : 0 < interval timeout := interval_pos timeout ht
  have hfuel : t0 + timeout ≤ t0 +
      ((⌈timeout / interval timeout⌉.toNat : ℕ) : ℚ) * interval timeout := by
    have := ceil_toNat_mul timeout (interval timeout) ht hi
    linarith
  have htot := waitLoop_total ps (t0 + timeout) (interval timeout)
    ((⌈timeout / interval timeout⌉).toNat) t0 hfuel
  obtain ⟨r, hr⟩ := Option.isSome_iff_exists.mp htot
  unfold wait
  rw [if_pos (ne_of_gt ht)]
  rw [show waitFuel timeout (interval timeout) =
    (⌈timeout / interval timeout⌉).toNat + 1 from rfl, hr]
  cases r with
  | inl p =>
      obtain ⟨c, tr⟩ := p
      have hpoll := waitLoop_inl ps (t0 + timeout) (interval timeout) _ t0 tr c hr
      obtain ⟨hc, te, hte, _⟩ := pollAt_some_of_not_killed ps tr c hk hpoll
      refine ⟨⟨some c, ps, tr, false⟩, rfl, by simp, ?_, ?_, ?_, ?_⟩
      · intro h; exact absurd h (by simp)
      · intro _; exact ⟨by rw [hc], rfl⟩
      · intro te' _ _; rfl
      · intro hnone; rw [hnone] at hte; exact absurd hte (by simp)
  | inr tb =>
      obtain ⟨hpoll, hetb⟩ := waitLoop_inr ps (t0 + timeout) (interval timeout)
        _ t0 tb hr
      have heff := effExit_stopEffect ps tb hk hpoll
      have hbw : blockingWait (stopEffect ps tb) tb = some (killCode, tb) := by
        unfold blockingWait
        rw [heff]
        show some (killCode, max tb tb) = _
        rw [max_self]
      dsimp only
      rw [hbw]
      refine ⟨⟨none, stopEffect ps tb, tb, true⟩, rfl, by simp, ?_, ?_, ?_, ?_⟩
      · intro _
        refine ⟨rfl, ?_, hetb⟩
        show stopEffect ps tb = _
        unfold stopEffect
        rw [hk]
      · intro h; exact absurd h (by simp)
      · intro te h1 h2
        have := pollAt_none_lt ps tb te hk h1 hpoll
        exfalso
        linarith
      · intro _; rfl

theorem c1_witness : (wait ⟨⟨some 0, 5⟩, none⟩ 0 1).isSome = true := by
  obtain ⟨w, hw, -⟩ := c1_wait_amended ⟨⟨some 0, 5⟩, none⟩ 0 1 rfl (by norm_num)
  rw [hw]
  rfl

/-- C1 counterexample: a process that never exits on its own, waited on
with `timeout = 1` from `t0 = 0`: the deadline path runs `stop()` and
the final blocking wait, but the call returns Python `None`
(`ret = none`), not the forced kill's exit status. -/
theorem c1_counterexample :
    wait ⟨⟨none, 0⟩, none⟩ 0 1 = some ⟨none, ⟨⟨none, 0⟩, some 1⟩, 1, true⟩ := by
  have h := wait_noexit ⟨⟨none, 0⟩, none⟩ 0 1 rfl (by norm_num)
  rw [h]
  have hiv : interval 1 = 1 / 1000 := by
    unfold interval
    rw [min_eq_left (by norm_num)]
  rw [show (0 : ℚ) + interval 1 *
      ((⌈(1 : ℚ) / interval 1⌉.toNat : ℕ) : ℚ) = 1 from by
    rw [hiv]
    norm_num
    rw [show Int.toNat 1000 = 1000 from rfl]
    norm_num]
  rfl

/-- C2 (amended): with `timeout` equal to zero (falsy), `wait` blocks
until the process's effective exit — it never returns early, and hangs
forever if the process never exits — but returns Python `None`, not the
exit code.  With `timeout` absent the default `600` applies, so the call
takes the timed path rather than blocking indefinitely. -/
theorem c2_wait_zero_amended (ps : ProcSt) (t0 : ℚ) :
    (effExit ps = none → wait ps t0 0 = none) ∧
    (∀ te c, effExit ps = some (te, c) →
      wait ps t0 0 = some ⟨none, ps, max t0 te, false⟩) ∧
    (wait ps t0 = wait ps t0 600) := by
  refine ⟨fun he => ?_, fun te c he => ?_, rfl⟩
  · unfold wait
    rw [if_neg (by norm_num)]
    unfold blockingWait
    rw [he]
  · unfold wait
    rw [if_neg (by norm_num)]
    unfold blockingWait
    rw [he]

theorem c2_witness :
    wait ⟨⟨some 1, 7⟩, none⟩ 0 0 =
      some ⟨none, ⟨⟨some 1, 7⟩, none⟩, 1, false⟩ := by
  have h := (c2_wait_zero_amended ⟨⟨some 1, 7⟩, none⟩ 0).2.1 1 7 rfl
  rw [h]
  norm_num

/-- C2 counterexample: with `timeout` absent, a process that never exits
does not make `wait` block until exit: the default timeout 600 applies,
the process is killed at time 600 and the call returns `None` — against
the claim's "blocks until the process has actually exited and returns
the process's exit code". -/
theorem c2_counterexample :
    wait ⟨⟨none, 0⟩, none⟩ 0 =
      some ⟨none, ⟨⟨none, 0⟩, some 600⟩, 600, true⟩ := by
  have h := wait_noexit ⟨⟨none, 0⟩, none⟩ 0 600 rfl (by norm_num)
  rw [h]
  have hiv : interval 600 = 1 / 4 := by
    unfold interval
    rw [min_eq_right (by norm_num)]
  rw [show (0 : ℚ) + interval 600 *
      ((⌈(600 : ℚ) / interval 600⌉.toNat : ℕ) : ℚ) = 600 from by
    rw [hiv]
    norm_num
    rw [show Int.toNat 2400 = 2400 from rfl]
    norm_num]
  rfl

/-- C9: `is_running` is false when the process was never started, false
when a non-blocking poll shows the process has exited, true otherwise;
and it is false at the instant any completed `wait` call returns, on
every code path of `wait` (early poll return, deadline/kill path, and
the no-timeout blocking path). -/
theorem c9_is_running_spec :
    (∀ t, is_running ⟨none⟩ t = false) ∧
    (∀ ps t c, pollAt ps t = some c → is_running ⟨some ps⟩ t = false) ∧
    (∀ ps t, pollAt ps t = none → is_running ⟨some ps⟩ t = true) ∧
    (∀ ps t0 timeout w, wait ps t0 timeout = some w →
      is_running ⟨some w.st⟩ w.t = false) := by
  refine ⟨fun t => rfl, fun ps t c h => ?_, fun ps t h => ?_,
    fun ps t0 timeout w hw => ?_⟩
  · unfold is_running
    dsimp only
    rw [h]
  · unfold is_running
    dsimp only
    rw [h]
  · unfold wait at hw
    by_cases htz : timeout ≠ 0
    · rw [if_pos htz] at hw
      cases hr : waitLoop ps (t0 + timeout) (interval timeout)
          (waitFuel timeout (interval timeout)) t0 with
      | none => rw [hr] at hw; exact absurd hw (by simp)
      | some r =>
          rw [hr] at hw
          cases r with
          | inl p =>
              obtain ⟨c, tr⟩ := p
              dsimp only at hw
              rw [Option.some.injEq] at hw
              have hpoll := waitLoop_inl ps (t0 + timeout) (interval timeout)
                _ t0 tr c hr
              rw [← hw]
              show is_running ⟨some ps⟩ tr = false
              unfold is_running
              dsimp only
              rw [hpoll]
          | inr tb =>
              dsimp only at hw
              cases hb : blockingWait (stopEffect ps tb) tb with
              | none => rw [hb] at hw; exact absurd hw (by simp)
              | some p =>
                  obtain ⟨c2, t2⟩ := p
                  rw [hb] at hw
                  rw [Option.some.injEq] at hw
                  have hpoll := blockingWait_poll (stopEffect ps tb) tb t2 c2 hb
                  rw [← hw]
                  show is_running ⟨some (stopEffect ps tb)⟩ t2 = false
                  unfold is_running
                  dsimp only
                  rw [hpoll]
    · rw [if_neg htz] at hw
      cases hb : blockingWait ps t0 with
      | none => rw [hb] at hw; exact absurd hw (by simp)
      | some p =>
          obtain ⟨c, t2⟩ := p
          rw [hb] at hw
          rw [Option.some.injEq] at hw
          have hpoll := blockingWait_poll ps t0 t2 c hb
          rw [← hw]
          show is_running ⟨some ps⟩ t2 = false
          unfold is_running
          dsimp only
          rw [hpoll]

theorem c9_witness : is_running ⟨some ⟨⟨some 1, 7⟩, none⟩⟩ 1 = false := by
  have hwait : wait ⟨⟨some 1, 7⟩, none⟩ 0 0 =
      some ⟨none, ⟨⟨some 1, 7⟩, none⟩, 1, false⟩ := by
    unfold wait blockingWait effExit
    norm_num
  exact c9_is_running_spec.2.2.2 ⟨⟨some 1, 7⟩, none⟩ 0 0
    ⟨none, ⟨⟨some 1, 7⟩, none⟩, 1, false⟩ hwait

end Quokka
